import Mathlib

/-!
Verification of the `rubik_sim` cube core: a shallow embedding of
`rubik_sim/core/cube_model.py`, `rubik_sim/logic/moves.py`,
`rubik_sim/logic/scramble.py` and `rubik_sim/solve/iddfs_solver.py`.

Modelling conventions:
* Python strings are modelled as `List Char`; `str.strip()` as `pyStrip`,
  `str.split()` as `pySplit`, `" ".join` as `joinSpaces`.
* A raised Python exception (`ValueError`, `KeyError`) is modelled by
  `Except.error` carrying the message.
* The cube state `Dict[Face, List[Color]]` (each list of length 9) is
  modelled as a total function `Face → Fin 9 → Color`.
-/

deriving instance DecidableEq for Except

namespace RubikSim

/-- The canonical apostrophe character `'` (codepoint 39). -/
def apos : Char := Char.ofNat 39

/-- The typographic right single quotation mark (U+2019). -/
def typApos1 : Char := Char.ofNat 8217

/-- The typographic left single quotation mark (U+2018). -/
def typApos2 : Char := Char.ofNat 8216

/-- Python `str.strip()`: drop whitespace from both ends. -/
def pyStrip (s : List Char) : List Char :=
  (((s.dropWhile Char.isWhitespace).reverse).dropWhile Char.isWhitespace).reverse

/-- Helper for `pySplit`: accumulate the current word (reversed) while
scanning; whitespace flushes the word. -/
def splitAux : List Char → List Char → List (List Char)
  | [], acc => if acc = [] then [] else [acc.reverse]
  | c :: cs, acc =>
    if c.isWhitespace then
      (if acc = [] then splitAux cs [] else acc.reverse :: splitAux cs [])
    else splitAux cs (c :: acc)

/-- Python `str.split()` with no argument: split on whitespace runs,
dropping empty words. -/
def pySplit (s : List Char) : List (List Char) :=
  splitAux s []

/-- Python `" ".join(seq)`. -/
def joinSpaces : List (List Char) → List Char
  | [] => []
  | [t] => t
  | t :: ts => t ++ ' ' :: joinSpaces ts

/-- The six faces of the cube (`Face = Literal["U","D","L","R","F","B"]`). -/
inductive Face : Type
  | U | D | L | R | F | B
deriving DecidableEq, Repr, Fintype

/-- The six sticker colors used by `CubeModel` (`"W" "Y" "O" "R" "G" "B"`). -/
inductive Color : Type
  | W | Y | O | R | G | B
deriving DecidableEq, Repr, Fintype

/-- `CubeModel.FACES`, in source order. -/
def FACES : List Face := [.U, .D, .L, .R, .F, .B]

/-- `CubeModel.COLORS_SOLVED`. -/
def COLORS_SOLVED : Face → Color
  | .U => .W
  | .D => .Y
  | .L => .O
  | .R => .R
  | .F => .G
  | .B => .B

/-- Integer 3-vectors (`Vec3i = Tuple[int, int, int]`). -/
abbrev Vec3i : Type := Int × Int × Int

/-- `CubeModel.FACE_NORMAL`. -/
def FACE_NORMAL : Face → Vec3i
  | .F => (0, 0, 1)
  | .B => (0, 0, -1)
  | .R => (1, 0, 0)
  | .L => (-1, 0, 0)
  | .U => (0, 1, 0)
  | .D => (0, -1, 0)

/-- The (position, normal) pair of facelet `(face, i)`, from
`CubeModel._build_facelet_maps` (`r, c = i // 3, i % 3`). -/
def faceletToPN (face : Face) (i : Fin 9) : Vec3i × Vec3i :=
  let r : Int := (i : Nat) / 3
  let c : Int := (i : Nat) % 3
  let pos : Vec3i :=
    match face with
    | .F => (c - 1, 1 - r, 1)
    | .B => (1 - c, 1 - r, -1)
    | .R => (1, 1 - r, c - 1)
    | .L => (-1, 1 - r, 1 - c)
    | .U => (c - 1, 1, r - 1)
    | .D => (c - 1, -1, 1 - r)
  (pos, FACE_NORMAL face)

/-- All 54 facelets `(face, index)` in the iteration order of the source
(faces in `FACES` order, indices ascending). -/
def allFacelets : List (Face × Fin 9) :=
  (FACES.map (fun f => (List.finRange 9).map (fun i => (f, i)))).flatten

/-- `CubeModel._pn_to_facelet`: the inverse dictionary, built from the
forward map; `none` models a missing key (`KeyError` on lookup). -/
def pnToFacelet (pn : Vec3i × Vec3i) : Option (Face × Fin 9) :=
  allFacelets.find? (fun fi => decide (faceletToPN fi.1 fi.2 = pn))

/-- `CubeModel._rot_x` (right-hand-rule quarter turns about X, mod 4). -/
def rotX (v : Vec3i) (turns : Int) : Vec3i :=
  let (x, y, z) := v
  let t := turns.emod 4
  if t = 0 then (x, y, z)
  else if t = 1 then (x, -z, y)
  else if t = 2 then (x, -y, -z)
  else (x, z, -y)

/-- `CubeModel._rot_y`. -/
def rotY (v : Vec3i) (turns : Int) : Vec3i :=
  let (x, y, z) := v
  let t := turns.emod 4
  if t = 0 then (x, y, z)
  else if t = 1 then (z, y, -x)
  else if t = 2 then (-x, y, -z)
  else (-z, y, x)

/-- `CubeModel._rot_z`. -/
def rotZ (v : Vec3i) (turns : Int) : Vec3i :=
  let (x, y, z) := v
  let t := turns.emod 4
  if t = 0 then (x, y, z)
  else if t = 1 then (y, -x, z)
  else if t = 2 then (-x, -y, z)
  else (-y, x, z)

/-- Rotation axes (the `axis` argument of `_rotate_layer`). -/
inductive Axis : Type
  | x | y | z
deriving DecidableEq, Repr

/-- Rotate a vector about the given axis (`_rot_x` / `_rot_y` / `_rot_z`). -/
def rotVec (axis : Axis) (v : Vec3i) (t : Int) : Vec3i :=
  match axis with
  | .x => rotX v t
  | .y => rotY v t
  | .z => rotZ v t

/-- The layer-membership test of `_rotate_layer` (`select`). -/
def selectPos (axis : Axis) (layerValue : Int) (pos : Vec3i) : Bool :=
  match axis with
  | .x => decide (pos.1 = layerValue)
  | .y => decide (pos.2.1 = layerValue)
  | .z => decide (pos.2.2 = layerValue)

/-- Cube states: `state[face][i]`, a total map from the 54 facelet slots. -/
def CubeState (α : Type) : Type := Face → Fin 9 → α

instance {α : Type} [DecidableEq α] : DecidableEq (CubeState α) :=
  fun s t => Fintype.decidablePiFintype (α := Face) s t

/-- Write one slot of a state (`new[dest_face][dest_i] = color`). -/
def writeCS {α : Type} (s : CubeState α) (d : Face × Fin 9) (v : α) : CubeState α :=
  fun f i => if f = d.1 ∧ i = d.2 then v else s f i

/-- The facelet loop of `CubeModel._rotate_layer`: fold over the facelets,
reading colors from the snapshot `old` and writing into the accumulator
`new` (both start as copies of the live state in the source). -/
def rotGo {α : Type} (axis : Axis) (layerValue : Int) (t : Int) (old : CubeState α) :
    List (Face × Fin 9) → CubeState α → Except String (CubeState α)
  | [], new => .ok new
  | fi :: rest, new =>
    let pn := faceletToPN fi.1 fi.2
    if selectPos axis layerValue pn.1 then
      let pos2 := rotVec axis pn.1 t
      let n2 := rotVec axis pn.2 t
      match pnToFacelet (pos2, n2) with
      | some d => rotGo axis layerValue t old rest (writeCS new d (old fi.1 fi.2))
      | none => .error "KeyError"
    else rotGo axis layerValue t old rest new

/-- `CubeModel._rotate_layer` (`t = turns % 4`, Python `%` = `Int.emod`). -/
def rotateLayer {α : Type} (axis : Axis) (layerValue turns : Int) (s : CubeState α) :
    Except String (CubeState α) :=
  rotGo axis layerValue (turns.emod 4) s allFacelets s

/-- `CubeModel._apply_base_move_cw`. -/
def applyBaseMoveCW {α : Type} (base : Char) (s : CubeState α) :
    Except String (CubeState α) :=
  if base = 'U' then rotateLayer .y 1 1 s
  else if base = 'D' then rotateLayer .y (-1) (-1) s
  else if base = 'R' then rotateLayer .x 1 (-1) s
  else if base = 'L' then rotateLayer .x (-1) 1 s
  else if base = 'F' then rotateLayer .z 1 (-1) s
  else if base = 'B' then rotateLayer .z (-1) 1 s
  else if base = 'M' then rotateLayer .x 0 1 s
  else if base = 'E' then rotateLayer .y 0 (-1) s
  else if base = 'S' then rotateLayer .z 0 (-1) s
  else .error "Movimiento no soportado"

/-- The `for _ in range(turns): self._apply_base_move_cw(base)` loop of
`CubeModel.apply_move`. -/
def applyTurns {α : Type} (base : Char) : Nat → CubeState α → Except String (CubeState α)
  | 0, s => .ok s
  | n + 1, s => (applyBaseMoveCW base s).bind (applyTurns base n)

/-- The nine base letters accepted by `CubeModel.apply_move`. -/
def baseLetters : List Char := ['U', 'D', 'L', 'R', 'F', 'B', 'E', 'M', 'S']

/-- `CubeModel.apply_move`. -/
def applyMove {α : Type} (move : List Char) (s : CubeState α) :
    Except String (CubeState α) :=
  let move := pyStrip move
  match move with
  | [] => .ok s
  | c :: rest =>
    let base := c.toUpper
    if base ∈ baseLetters then
      let suffix := rest
      if suffix = ['2'] then applyTurns base 2 s
      else if suffix = [apos] then applyTurns base 3 s
      else if suffix = [] then applyTurns base 1 s
      else .error "Sufijo no soportado"
    else .error "Movimiento no soportado"

/-- `CubeModel.apply_sequence` loop: tokens applied left to right; a raised
error leaves the state as mutated by the preceding tokens. -/
def applySeqGo {α : Type} : List (List Char) → CubeState α → CubeState α × Option String
  | [], s => (s, none)
  | t :: ts, s =>
    match applyMove t s with
    | .ok s2 => applySeqGo ts s2
    | .error e => (s, some e)

/-- `CubeModel.apply_sequence`: split on whitespace, apply each token.
The result is the final live state together with the raised error, if any. -/
def applySequence {α : Type} (seq : List Char) (s : CubeState α) :
    CubeState α × Option String :=
  applySeqGo (pySplit seq) s

/-- `CubeModel.__init__` / `CubeModel.reset`: the solved state. -/
def initCube : CubeState Color := fun f _ => COLORS_SOLVED f

/-- `CubeModel.is_solved`. -/
def isSolved (s : CubeState Color) : Bool :=
  FACES.all (fun f => (List.finRange 9).all (fun i => decide (s f i = COLORS_SOLVED f)))

/-- `CubeModel.to_hashable`: tuple of per-face 9-tuples in `FACES` order. -/
def toHashable {α : Type} (s : CubeState α) : List (List α) :=
  FACES.map (fun f => (List.finRange 9).map (s f))

/-- The state whose "color" at each slot is the slot's own address; running
a rotation on it reads off the rotation's slot permutation. -/
def addrState : CubeState (Face × Fin 9) := fun f i => (f, i)

/-- The slot permutation performed by a rotation: run the rotation on
`addrState` and list, in `allFacelets` order, the source slot whose color
lands on each slot. -/
def rotTable (axis : Axis) (layerValue turns : Int) :
    Except String (List (Face × Fin 9)) :=
  (rotateLayer axis layerValue turns addrState).map
    (fun σ => allFacelets.map (fun fi => σ fi.1 fi.2))

/-- Slot sources for the `U` base move (`_rotate_layer("y", 1, +1)`). -/
def tabU : List (Face × Fin 9) := [(.U, 2), (.U, 5), (.U, 8), (.U, 1), (.U, 4), (.U, 7), (.U, 0), (.U, 3), (.U, 6), (.D, 0), (.D, 1), (.D, 2), (.D, 3), (.D, 4), (.D, 5), (.D, 6), (.D, 7), (.D, 8), (.B, 2), (.B, 1), (.B, 0), (.L, 3), (.L, 4), (.L, 5), (.L, 6), (.L, 7), (.L, 8), (.F, 2), (.F, 1), (.F, 0), (.R, 3), (.R, 4), (.R, 5), (.R, 6), (.R, 7), (.R, 8), (.L, 2), (.L, 1), (.L, 0), (.F, 3), (.F, 4), (.F, 5), (.F, 6), (.F, 7), (.F, 8), (.R, 2), (.R, 1), (.R, 0), (.B, 3), (.B, 4), (.B, 5), (.B, 6), (.B, 7), (.B, 8)]

/-- Slot sources for the `D` base move (`_rotate_layer("y", -1, -1)`). -/
def tabD : List (Face × Fin 9) := [(.U, 0), (.U, 1), (.U, 2), (.U, 3), (.U, 4), (.U, 5), (.U, 6), (.U, 7), (.U, 8), (.D, 2), (.D, 5), (.D, 8), (.D, 1), (.D, 4), (.D, 7), (.D, 0), (.D, 3), (.D, 6), (.L, 0), (.L, 1), (.L, 2), (.L, 3), (.L, 4), (.L, 5), (.F, 8), (.F, 7), (.F, 6), (.R, 0), (.R, 1), (.R, 2), (.R, 3), (.R, 4), (.R, 5), (.B, 8), (.B, 7), (.B, 6), (.F, 0), (.F, 1), (.F, 2), (.F, 3), (.F, 4), (.F, 5), (.R, 8), (.R, 7), (.R, 6), (.B, 0), (.B, 1), (.B, 2), (.B, 3), (.B, 4), (.B, 5), (.L, 8), (.L, 7), (.L, 6)]

/-- Slot sources for the `R` base move (`_rotate_layer("x", 1, -1)`). -/
def tabR : List (Face × Fin 9) := [(.U, 0), (.U, 1), (.F, 2), (.U, 3), (.U, 4), (.F, 5), (.U, 6), (.U, 7), (.F, 8), (.D, 0), (.D, 1), (.B, 6), (.D, 3), (.D, 4), (.B, 3), (.D, 6), (.D, 7), (.B, 0), (.L, 0), (.L, 1), (.L, 2), (.L, 3), (.L, 4), (.L, 5), (.L, 6), (.L, 7), (.L, 8), (.R, 2), (.R, 5), (.R, 8), (.R, 1), (.R, 4), (.R, 7), (.R, 0), (.R, 3), (.R, 6), (.F, 0), (.F, 1), (.D, 2), (.F, 3), (.F, 4), (.D, 5), (.F, 6), (.F, 7), (.D, 8), (.U, 8), (.B, 1), (.B, 2), (.U, 5), (.B, 4), (.B, 5), (.U, 2), (.B, 7), (.B, 8)]

/-- Slot sources for the `L` base move (`_rotate_layer("x", -1, +1)`). -/
def tabL : List (Face × Fin 9) := [(.B, 8), (.U, 1), (.U, 2), (.B, 5), (.U, 4), (.U, 5), (.B, 2), (.U, 7), (.U, 8), (.F, 0), (.D, 1), (.D, 2), (.F, 3), (.D, 4), (.D, 5), (.F, 6), (.D, 7), (.D, 8), (.L, 2), (.L, 5), (.L, 8), (.L, 1), (.L, 4), (.L, 7), (.L, 0), (.L, 3), (.L, 6), (.R, 0), (.R, 1), (.R, 2), (.R, 3), (.R, 4), (.R, 5), (.R, 6), (.R, 7), (.R, 8), (.U, 0), (.F, 1), (.F, 2), (.U, 3), (.F, 4), (.F, 5), (.U, 6), (.F, 7), (.F, 8), (.B, 0), (.B, 1), (.D, 6), (.B, 3), (.B, 4), (.D, 3), (.B, 6), (.B, 7), (.D, 0)]

/-- Slot sources for the `F` base move (`_rotate_layer("z", 1, -1)`). -/
def tabF : List (Face × Fin 9) := [(.U, 0), (.U, 1), (.U, 2), (.U, 3), (.U, 4), (.U, 5), (.R, 2), (.R, 5), (.R, 8), (.L, 0), (.L, 3), (.L, 6), (.D, 3), (.D, 4), (.D, 5), (.D, 6), (.D, 7), (.D, 8), (.U, 8), (.L, 1), (.L, 2), (.U, 7), (.L, 4), (.L, 5), (.U, 6), (.L, 7), (.L, 8), (.R, 0), (.R, 1), (.D, 2), (.R, 3), (.R, 4), (.D, 1), (.R, 6), (.R, 7), (.D, 0), (.F, 2), (.F, 5), (.F, 8), (.F, 1), (.F, 4), (.F, 7), (.F, 0), (.F, 3), (.F, 6), (.B, 0), (.B, 1), (.B, 2), (.B, 3), (.B, 4), (.B, 5), (.B, 6), (.B, 7), (.B, 8)]

/-- Slot sources for the `B` base move (`_rotate_layer("z", -1, +1)`). -/
def tabB : List (Face × Fin 9) := [(.L, 8), (.L, 5), (.L, 2), (.U, 3), (.U, 4), (.U, 5), (.U, 6), (.U, 7), (.U, 8), (.D, 0), (.D, 1), (.D, 2), (.D, 3), (.D, 4), (.D, 5), (.R, 6), (.R, 3), (.R, 0), (.L, 0), (.L, 1), (.D, 6), (.L, 3), (.L, 4), (.D, 7), (.L, 6), (.L, 7), (.D, 8), (.U, 0), (.R, 1), (.R, 2), (.U, 1), (.R, 4), (.R, 5), (.U, 2), (.R, 7), (.R, 8), (.F, 0), (.F, 1), (.F, 2), (.F, 3), (.F, 4), (.F, 5), (.F, 6), (.F, 7), (.F, 8), (.B, 2), (.B, 5), (.B, 8), (.B, 1), (.B, 4), (.B, 7), (.B, 0), (.B, 3), (.B, 6)]

/-- Slot sources for the `M` slice move (`_rotate_layer("x", 0, +1)`). -/
def tabM : List (Face × Fin 9) := [(.U, 0), (.B, 7), (.U, 2), (.U, 3), (.B, 4), (.U, 5), (.U, 6), (.B, 1), (.U, 8), (.D, 0), (.F, 1), (.D, 2), (.D, 3), (.F, 4), (.D, 5), (.D, 6), (.F, 7), (.D, 8), (.L, 0), (.L, 1), (.L, 2), (.L, 3), (.L, 4), (.L, 5), (.L, 6), (.L, 7), (.L, 8), (.R, 0), (.R, 1), (.R, 2), (.R, 3), (.R, 4), (.R, 5), (.R, 6), (.R, 7), (.R, 8), (.F, 0), (.U, 1), (.F, 2), (.F, 3), (.U, 4), (.F, 5), (.F, 6), (.U, 7), (.F, 8), (.B, 0), (.D, 7), (.B, 2), (.B, 3), (.D, 4), (.B, 5), (.B, 6), (.D, 1), (.B, 8)]

/-- Slot sources for the `E` slice move (`_rotate_layer("y", 0, -1)`). -/
def tabE : List (Face × Fin 9) := [(.U, 0), (.U, 1), (.U, 2), (.U, 3), (.U, 4), (.U, 5), (.U, 6), (.U, 7), (.U, 8), (.D, 0), (.D, 1), (.D, 2), (.D, 3), (.D, 4), (.D, 5), (.D, 6), (.D, 7), (.D, 8), (.L, 0), (.L, 1), (.L, 2), (.F, 5), (.F, 4), (.F, 3), (.L, 6), (.L, 7), (.L, 8), (.R, 0), (.R, 1), (.R, 2), (.B, 5), (.B, 4), (.B, 3), (.R, 6), (.R, 7), (.R, 8), (.F, 0), (.F, 1), (.F, 2), (.R, 5), (.R, 4), (.R, 3), (.F, 6), (.F, 7), (.F, 8), (.B, 0), (.B, 1), (.B, 2), (.L, 5), (.L, 4), (.L, 3), (.B, 6), (.B, 7), (.B, 8)]

/-- Slot sources for the `S` slice move (`_rotate_layer("z", 0, -1)`). -/
def tabS : List (Face × Fin 9) := [(.U, 0), (.U, 1), (.U, 2), (.R, 1), (.R, 4), (.R, 7), (.U, 6), (.U, 7), (.U, 8), (.D, 0), (.D, 1), (.D, 2), (.L, 1), (.L, 4), (.L, 7), (.D, 6), (.D, 7), (.D, 8), (.L, 0), (.U, 5), (.L, 2), (.L, 3), (.U, 4), (.L, 5), (.L, 6), (.U, 3), (.L, 8), (.R, 0), (.D, 5), (.R, 2), (.R, 3), (.D, 4), (.R, 5), (.R, 6), (.D, 3), (.R, 8), (.F, 0), (.F, 1), (.F, 2), (.F, 3), (.F, 4), (.F, 5), (.F, 6), (.F, 7), (.F, 8), (.B, 0), (.B, 1), (.B, 2), (.B, 3), (.B, 4), (.B, 5), (.B, 6), (.B, 7), (.B, 8)]

/-- The slot-source table of each base letter accepted by `apply_move`
(defaulting to the identity-order table on letters never used). -/
def tabOf (b : Char) : List (Face × Fin 9) :=
  if b = 'U' then tabU
  else if b = 'D' then tabD
  else if b = 'R' then tabR
  else if b = 'L' then tabL
  else if b = 'F' then tabF
  else if b = 'B' then tabB
  else if b = 'M' then tabM
  else if b = 'E' then tabE
  else if b = 'S' then tabS
  else allFacelets

/-- First-match association lookup with a default. -/
def assocD {A B : Type} [DecidableEq A] (ps : List (A × B)) (a : A) (d : B) : B :=
  match ps with
  | [] => d
  | p :: rest => if p.1 = a then p.2 else assocD rest a d

/-- Apply a slot-source table as a function on slots (the slot of rank `k`
in `allFacelets` is sent to the `k`-th table entry). -/
def tabApp (tab : List (Face × Fin 9)) (fi : Face × Fin 9) : Face × Fin 9 :=
  assocD (allFacelets.zip tab) fi fi

/-- The colors of the 54 slots listed in `allFacelets` order (the flattened
state, as in the color-count test of the repository). -/
def colorList {α : Type} (s : CubeState α) : List α :=
  allFacelets.map (fun fi => s fi.1 fi.2)

/-! ## `rubik_sim/logic/moves.py` -/

/-- `moves.VALID_FACES`. -/
def VALID_FACES : List Char := ['U', 'D', 'L', 'R', 'F', 'B']

/-- `moves.VALID_SUFFIX`. -/
def VALID_SUFFIX : List (List Char) := [[], [apos], ['2']]

/-- The cleanup prefix of `normalize_token`:
`tok.strip().replace("’", "'").replace("‘", "'")`. -/
def cleanTok (tok : List Char) : List Char :=
  (pyStrip tok).map (fun c => if c = typApos1 ∨ c = typApos2 then apos else c)

/-- `moves.normalize_token`. -/
def normalizeToken (tok : List Char) : Except String (List Char) :=
  let tok := cleanTok tok
  match tok with
  | [] => .ok []
  | c :: rest =>
    if rest = [] ∧ c ∈ VALID_FACES then .ok [c]
    else
      let base := c
      let suf := rest
      if base ∉ VALID_FACES then .error "Movimiento inválido"
      else
        let suf := if suf = ['2', apos] then ['2'] else suf
        if suf ∈ VALID_SUFFIX then .ok (base :: suf)
        else .error "Sufijo inválido"

/-- `moves.inverse_move`. -/
def inverseMove (m : List Char) : Except String (List Char) :=
  (normalizeToken m).bind (fun m =>
    match m with
    | [] => .ok []
    | base :: suf =>
      if suf = [] then .ok [base, apos]
      else if suf = [apos] then .ok [base]
      else if suf = ['2'] then .ok [base, '2']
      else .ok (base :: suf))

/-- The normalization loop of `parse_sequence` (append tokens in order,
stopping with the error of the first invalid one). -/
def normList : List (List Char) → Except String (List (List Char))
  | [] => .ok []
  | t :: ts =>
    (normalizeToken t).bind (fun n => (normList ts).map (fun ns => n :: ns))

/-- `moves.parse_sequence`. -/
def parseSequence (text : List Char) : Except String (List (List Char)) :=
  normList ((pySplit (pyStrip text)).filter (fun t => pyStrip t ≠ []))

/-! ## `rubik_sim/logic/scramble.py`

The only impure ingredient, `random.Random(seed)` with `rng.choice`, is
abstracted: a *choice stream* `Nat → Nat` supplies, for the `k`-th call to
`rng.choice(lst)`, an arbitrary draw, and `choice` reduces it modulo
`len(lst)`.  Every behavior of the Mersenne-Twister generator is one such
stream, so properties proved for all streams hold for the source. -/

/-- `scramble.FACES`. -/
def SCR_FACES : List Char := ['U', 'D', 'L', 'R', 'F', 'B']

/-- `scramble.SUFFIX`. -/
def SCR_SUFFIX : List (List Char) := [[], [apos], ['2']]

/-- `rng.choice(lst)`, the `k`-th call of the run; the source raises on an
empty list, which never happens here, so a default covers that case. -/
def rngChoice {α : Type} (d : α) (stream : Nat → Nat) (k : Nat) (l : List α) :
    α × Nat :=
  (l.getD (stream k % l.length) d, k + 1)

/-- The generation loop of `generate_scramble` (`n` iterations, tracking
`last_face` and the choice-stream position). -/
def scrambleGo (stream : Nat → Nat) : Nat → Option Char → Nat → List (List Char)
  | 0, _, _ => []
  | n + 1, lastFace, k =>
    let candidates := SCR_FACES.filter (fun m => lastFace ≠ some m)
    let fk := rngChoice 'U' stream k candidates
    let sk := rngChoice [] stream fk.2 SCR_SUFFIX
    (fk.1 :: sk.1) :: scrambleGo stream n (some fk.1) sk.2

/-- `scramble.generate_scramble` (the seed is abstracted into the choice
stream; the result is the space-joined token string). -/
def generateScramble (n : Int) (stream : Nat → Nat) : Except String (List Char) :=
  if n ≤ 0 then .error "n debe ser mayor que 0."
  else .ok (joinSpaces (scrambleGo stream n.toNat none 0))

/-! ## `rubik_sim/solve/iddfs_solver.py`

`should_cancel` is a stateful callable in the source; it is modelled as a
boolean stream indexed by the number of calls made so far, and the call
counter is threaded through the search.  `on_depth` only notifies the
caller and cannot influence the search state, so it is not modelled. -/

/-- `iddfs_solver.MOVES`: the 18-move search alphabet. -/
def MOVES : List (List Char) :=
  [['U'], ['U', apos], ['U', '2'],
   ['D'], ['D', apos], ['D', '2'],
   ['L'], ['L', apos], ['L', '2'],
   ['R'], ['R', apos], ['R', '2'],
   ['F'], ['F', apos], ['F', '2'],
   ['B'], ['B', apos], ['B', '2']]

/-- `iddfs_solver.INV` as an association list (insertion order of the
source dict). -/
def INVL : List (List Char × List Char) :=
  [(['U'], ['U', apos]), (['U', apos], ['U']), (['U', '2'], ['U', '2']),
   (['D'], ['D', apos]), (['D', apos], ['D']), (['D', '2'], ['D', '2']),
   (['L'], ['L', apos]), (['L', apos], ['L']), (['L', '2'], ['L', '2']),
   (['R'], ['R', apos]), (['R', apos], ['R']), (['R', '2'], ['R', '2']),
   (['F'], ['F', apos]), (['F', apos], ['F']), (['F', '2'], ['F', '2']),
   (['B'], ['B', apos]), (['B', apos], ['B']), (['B', '2'], ['B', '2'])]

/-- `INV.get(m)`: dictionary lookup returning `None` on a missing key. -/
def INVget (m : List Char) : Option (List Char) :=
  (INVL.find? (fun p => decide (p.1 = m))).map (fun p => p.2)

/-- The cube hash type of the solver (`CubeModel.to_hashable`). -/
abbrev CubeHash : Type := List (List Color)

/-- One `should_cancel` poll: `should_cancel is not None and should_cancel()`.
Returns the poll outcome and the updated call counter. -/
def pollCancel (cancel : Option (Nat → Bool)) (polls : Nat) : Bool × Nat :=
  match cancel with
  | none => (false, polls)
  | some f => (f polls, polls + 1)

/-- The `for mv in MOVES` loop of `_dfs`; `next` is the recursive call at
the smaller depth.  Both prunes, the cycle check against `seen_on_path`,
and the push/recurse/backtrack discipline follow the source (backtracking
is implicit: the loop continues with the unchanged `path` and `seen`). -/
def dfsLoop
    (next : CubeState Color → List (List Char) → List CubeHash → List Char → Nat →
      Except String (Option (List (List Char)) × Nat)) :
    List (List Char) → CubeState Color → List (List Char) → List CubeHash →
      Option (List Char) → Nat → Except String (Option (List (List Char)) × Nat)
  | [], _, _, _, _, polls => .ok (none, polls)
  | mv :: rest, model, path, seen, lastMove, polls =>
    let prune1 : Bool := match lastMove with
      | some lm => decide (mv.head? = lm.head?)
      | none => false
    let prune2 : Bool := match lastMove with
      | some lm => decide (INVget lm = some mv)
      | none => false
    if prune1 ∨ prune2 then dfsLoop next rest model path seen lastMove polls
    else
      match applyMove mv model with
      | .error e => .error e
      | .ok child =>
        let h := toHashable child
        if h ∈ seen then dfsLoop next rest model path seen lastMove polls
        else
          match next child (path ++ [mv]) (h :: seen) mv polls with
          | .error e => .error e
          | .ok (some ans, p2) => .ok (some ans, p2)
          | .ok (none, p2) => dfsLoop next rest model path seen lastMove p2

/-- `iddfs_solver._dfs`. -/
def dfs (cancel : Option (Nat → Bool)) (remaining : Nat) (model : CubeState Color)
    (path : List (List Char)) (seen : List CubeHash) (lastMove : Option (List Char))
    (polls : Nat) : Except String (Option (List (List Char)) × Nat) :=
  let pc := pollCancel cancel polls
  if pc.1 then .ok (none, pc.2)
  else if isSolved model then .ok (some path, pc.2)
  else
    match remaining with
    | 0 => .ok (none, pc.2)
    | r + 1 =>
      dfsLoop (fun m p sn lm pl => dfs cancel r m p sn (some lm) pl)
        MOVES model path seen lastMove pc.2

/-- The depth list `range(1, max_depth + 1)` of `iddfs_solve`. -/
def iddfsDepths (maxDepth : Int) : List Nat :=
  (List.range maxDepth.toNat).map (fun d => d + 1)

/-- The `for depth_limit in range(1, max_depth + 1)` loop of `iddfs_solve`. -/
def iddfsLoop (cancel : Option (Nat → Bool)) (start : CubeState Color)
    (startHash : CubeHash) :
    List Nat → Nat → Except String (Option (List (List Char)))
  | [], _ => .ok none
  | d :: ds, polls =>
    let pc := pollCancel cancel polls
    if pc.1 then .ok none
    else
      match dfs cancel d start [] [startHash] none pc.2 with
      | .error e => .error e
      | .ok (some res, _) => .ok (some res)
      | .ok (none, p2) => iddfsLoop cancel start startHash ds p2

/-- `iddfs_solver.iddfs_solve` (the `_copy_model` deep copy is the state
value itself in this pure embedding). -/
def iddfsSolve (model : CubeState Color) (maxDepth : Int)
    (cancel : Option (Nat → Bool)) : Except String (Option (List (List Char))) :=
  if isSolved model then .ok (some [])
  else iddfsLoop cancel model (toHashable model) (iddfsDepths maxDepth) 0

/-- Apply a list of tokens in order through `apply_move` (the verification
path of the solver claims: `applyMoves sol s` is "apply each returned token
to the original state"). -/
def applyMoves : List (List Char) → CubeState Color → Except String (CubeState Color)
  | [], s => .ok s
  | t :: ts, s => (applyMove t s).bind (applyMoves ts)

/-- The round trip of a token: apply it, then apply its computed inverse. -/
def roundTrip (m : List Char) (s : CubeState Color) : Except String (CubeState Color) :=
  (applyMove m s).bind (fun s1 =>
    (inverseMove m).bind (fun im => applyMove im s1))

/-! ## Rotations act as slot permutations

`_rotate_layer` only moves colors between slots, never inspecting them, so
its action on an arbitrary state is obtained by running it once on
`addrState` and reading colors through the resulting slot map. -/

/-- Recolor a state pointwise. -/
def mapCS {α β : Type} (g : α → β) (s : CubeState α) : CubeState β :=
  fun f i => g (s f i)

theorem writeCS_map {α β : Type} (g : α → β) (s : CubeState α) (d : Face × Fin 9)
    (v : α) : writeCS (mapCS g s) d (g v) = mapCS g (writeCS s d v) := by
  funext f i
  simp only [writeCS, mapCS]
  by_cases h : f = d.1 ∧ i = d.2 <;> simp [h]

theorem rotGo_map {α β : Type} (g : α → β) (axis : Axis) (lv t : Int)
    (old : CubeState α) (l : List (Face × Fin 9)) (new : CubeState α) :
    rotGo axis lv t (mapCS g old) l (mapCS g new) =
      (rotGo axis lv t old l new).map (mapCS g) := by
  induction l generalizing new with
  | nil => rfl
  | cons fi rest ih =>
    simp only [rotGo]
    cases hsel : selectPos axis lv (faceletToPN fi.1 fi.2).1 with
    | false => simp only [hsel, Bool.false_eq_true, if_false, ih]
    | true =>
      simp only [hsel, if_true]
      cases hlk : pnToFacelet (rotVec axis (faceletToPN fi.1 fi.2).1 t,
          rotVec axis (faceletToPN fi.1 fi.2).2 t) with
      | none => rfl
      | some d =>
        dsimp only
        rw [show mapCS g old fi.1 fi.2 = g (old fi.1 fi.2) from rfl,
          writeCS_map g new d (old fi.1 fi.2), ih]

theorem rotateLayer_map {α β : Type} (g : α → β) (axis : Axis) (lv turns : Int)
    (s : CubeState α) :
    rotateLayer axis lv turns (mapCS g s) =
      (rotateLayer axis lv turns s).map (mapCS g) := by
  simp only [rotateLayer]
  exact rotGo_map g axis lv (turns.emod 4) s allFacelets s

theorem rotateLayer_spec {α : Type} (axis : Axis) (lv turns : Int) (s : CubeState α) :
    rotateLayer axis lv turns s =
      (rotateLayer axis lv turns addrState).map (mapCS (fun p => s p.1 p.2)) := by
  have h := rotateLayer_map (fun p : Face × Fin 9 => s p.1 p.2) axis lv turns addrState
  have hs : mapCS (fun p : Face × Fin 9 => s p.1 p.2) addrState = s := rfl
  rw [hs] at h
  exact h

theorem exceptMapOk {ε α β : Type} (g : α → β) (e : Except ε α) (y : β)
    (h : e.map g = .ok y) : ∃ x, e = .ok x ∧ g x = y := by
  cases e with
  | error er => simp [Except.map] at h
  | ok x =>
    refine ⟨x, rfl, ?_⟩
    simpa [Except.map] using h

theorem assocD_zip_map {A B : Type} [DecidableEq A] (g : A → B) (d : B) :
    ∀ (l : List A) (a : A), a ∈ l → assocD (l.zip (l.map g)) a d = g a := by
  intro l
  induction l with
  | nil => intro a ha; cases ha
  | cons x xs ih =>
    intro a ha
    simp only [List.map_cons, List.zip_cons_cons, assocD]
    by_cases hx : x = a
    · subst hx; simp
    · simp only [hx, if_false]
      rcases List.mem_cons.mp ha with h | h
      · exact absurd h.symm hx
      · exact ih a h

theorem mem_allFacelets (fi : Face × Fin 9) : fi ∈ allFacelets := by
  revert fi; decide

theorem tabApp_spec (σp : Face × Fin 9 → Face × Fin 9) (tab : List (Face × Fin 9))
    (hmap : allFacelets.map σp = tab) (fi : Face × Fin 9) :
    tabApp tab fi = σp fi := by
  subst hmap
  exact assocD_zip_map σp fi allFacelets fi (mem_allFacelets fi)

theorem rotateLayer_eq_tab {α : Type} (axis : Axis) (lv turns : Int)
    (tab : List (Face × Fin 9)) (h : rotTable axis lv turns = .ok tab)
    (s : CubeState α) :
    rotateLayer axis lv turns s =
      .ok (fun f i => s (tabApp tab (f, i)).1 (tabApp tab (f, i)).2) := by
  obtain ⟨σ, hσ, hmap⟩ := exceptMapOk _ _ _ h
  rw [rotateLayer_spec axis lv turns s, hσ]
  simp only [Except.map]
  congr 1
  funext f i
  have hp : tabApp tab (f, i) = σ f i :=
    tabApp_spec (fun fi => σ fi.1 fi.2) tab hmap (f, i)
  simp only [mapCS]
  rw [hp]

theorem rotTable_U : rotTable .y 1 1 = .ok tabU := by decide

theorem rotTable_D : rotTable .y (-1) (-1) = .ok tabD := by decide

theorem rotTable_R : rotTable .x 1 (-1) = .ok tabR := by decide

theorem rotTable_L : rotTable .x (-1) 1 = .ok tabL := by decide

theorem rotTable_F : rotTable .z 1 (-1) = .ok tabF := by decide

theorem rotTable_B : rotTable .z (-1) 1 = .ok tabB := by decide

theorem rotTable_M : rotTable .x 0 1 = .ok tabM := by decide

theorem rotTable_E : rotTable .y 0 (-1) = .ok tabE := by decide

theorem rotTable_S : rotTable .z 0 (-1) = .ok tabS := by decide

theorem applyBase_eq_tab {α : Type} (b : Char) (hb : b ∈ baseLetters)
    (s : CubeState α) :
    applyBaseMoveCW b s =
      .ok (fun f i => s (tabApp (tabOf b) (f, i)).1 (tabApp (tabOf b) (f, i)).2) := by
  have hb2 : b = 'U' ∨ b = 'D' ∨ b = 'L' ∨ b = 'R' ∨ b = 'F' ∨ b = 'B' ∨
      b = 'E' ∨ b = 'M' ∨ b = 'S' := by
    simpa [baseLetters] using hb
  rcases hb2 with rfl | rfl | rfl | rfl | rfl | rfl | rfl | rfl | rfl
  · unfold applyBaseMoveCW
    rw [if_pos rfl, show tabOf ('U') = tabU from rfl]
    exact rotateLayer_eq_tab _ _ _ _ rotTable_U s
  · unfold applyBaseMoveCW
    rw [if_neg (by decide), if_pos rfl, show tabOf ('D') = tabD from rfl]
    exact rotateLayer_eq_tab _ _ _ _ rotTable_D s
  · unfold applyBaseMoveCW
    rw [if_neg (by decide), if_neg (by decide), if_neg (by decide), if_pos rfl,
      show tabOf ('L') = tabL from rfl]
    exact rotateLayer_eq_tab _ _ _ _ rotTable_L s
  · unfold applyBaseMoveCW
    rw [if_neg (by decide), if_neg (by decide), if_pos rfl,
      show tabOf ('R') = tabR from rfl]
    exact rotateLayer_eq_tab _ _ _ _ rotTable_R s
  · unfold applyBaseMoveCW
    rw [if_neg (by decide), if_neg (by decide), if_neg (by decide), if_neg (by decide),
      if_pos rfl, show tabOf ('F') = tabF from rfl]
    exact rotateLayer_eq_tab _ _ _ _ rotTable_F s
  · unfold applyBaseMoveCW
    rw [if_neg (by decide), if_neg (by decide), if_neg (by decide), if_neg (by decide),
      if_neg (by decide), if_pos rfl, show tabOf ('B') = tabB from rfl]
    exact rotateLayer_eq_tab _ _ _ _ rotTable_B s
  · unfold applyBaseMoveCW
    rw [if_neg (by decide), if_neg (by decide), if_neg (by decide), if_neg (by decide),
      if_neg (by decide), if_neg (by decide), if_neg (by decide), if_pos rfl,
      show tabOf ('E') = tabE from rfl]
    exact rotateLayer_eq_tab _ _ _ _ rotTable_E s
  · unfold applyBaseMoveCW
    rw [if_neg (by decide), if_neg (by decide), if_neg (by decide), if_neg (by decide),
      if_neg (by decide), if_neg (by decide), if_pos rfl,
      show tabOf ('M') = tabM from rfl]
    exact rotateLayer_eq_tab _ _ _ _ rotTable_M s
  · unfold applyBaseMoveCW
    rw [if_neg (by decide), if_neg (by decide), if_neg (by decide), if_neg (by decide),
      if_neg (by decide), if_neg (by decide), if_neg (by decide), if_neg (by decide),
      if_pos rfl, show tabOf ('S') = tabS from rfl]
    exact rotateLayer_eq_tab _ _ _ _ rotTable_S s

/-! ## Permutation facts about the nine tables -/

theorem tabTotal : ∀ b ∈ baseLetters, allFacelets.map (tabApp (tabOf b)) = tabOf b := by
  decide

theorem tabPerm : ∀ b ∈ baseLetters, (tabOf b).Perm allFacelets := by
  decide

theorem tabPow4 : ∀ b ∈ baseLetters, ∀ fi : Face × Fin 9,
    tabApp (tabOf b) (tabApp (tabOf b) (tabApp (tabOf b) (tabApp (tabOf b) fi))) = fi := by
  decide

theorem colorList_tab {α : Type} (s : CubeState α) (tab : List (Face × Fin 9)) :
    colorList (fun f i => s (tabApp tab (f, i)).1 (tabApp tab (f, i)).2) =
      (allFacelets.map (tabApp tab)).map (fun p => s p.1 p.2) := by
  unfold colorList
  rw [List.map_map]
  rfl

theorem applyBase_perm {α : Type} (b : Char) (hb : b ∈ baseLetters)
    (s s' : CubeState α) (h : applyBaseMoveCW b s = .ok s') :
    (colorList s').Perm (colorList s) := by
  rw [applyBase_eq_tab b hb s] at h
  injection h with h
  subst h
  rw [colorList_tab s (tabOf b), tabTotal b hb]
  exact (tabPerm b hb).map (fun p => s p.1 p.2)

theorem applyTurns_perm {α : Type} (b : Char) (hb : b ∈ baseLetters) :
    ∀ (k : Nat) (s s' : CubeState α), applyTurns b k s = .ok s' →
      (colorList s').Perm (colorList s) := by
  intro k
  induction k with
  | zero =>
    intro s s' h
    injection h with h
    subst h
    exact List.Perm.refl _
  | succ n ih =>
    intro s s' h
    simp only [applyTurns] at h
    cases h1 : applyBaseMoveCW b s with
    | error e => rw [h1] at h; exact absurd h (by simp [Except.bind])
    | ok s1 =>
      rw [h1] at h
      simp only [Except.bind] at h
      exact (ih s1 s' h).trans (applyBase_perm b hb s s1 h1)

theorem applyMove_perm {α : Type} (t : List Char) (s s' : CubeState α)
    (h : applyMove t s = .ok s') : (colorList s').Perm (colorList s) := by
  simp only [applyMove] at h
  cases hm : pyStrip t with
  | nil =>
    rw [hm] at h
    injection h with h
    subst h
    exact List.Perm.refl _
  | cons c rest =>
    rw [hm] at h
    dsimp only at h
    by_cases hmem : c.toUpper ∈ baseLetters
    · rw [if_pos hmem] at h
      by_cases h2 : rest = ['2']
      · rw [if_pos h2] at h
        exact applyTurns_perm c.toUpper hmem 2 s s' h
      · rw [if_neg h2] at h
        by_cases h3 : rest = [apos]
        · rw [if_pos h3] at h
          exact applyTurns_perm c.toUpper hmem 3 s s' h
        · rw [if_neg h3] at h
          by_cases h4 : rest = []
          · rw [if_pos h4] at h
            exact applyTurns_perm c.toUpper hmem 1 s s' h
          · rw [if_neg h4] at h
            exact absurd h (by simp)
    · rw [if_neg hmem] at h
      exact absurd h (by simp)

theorem applyMoves_perm (toks : List (List Char)) :
    ∀ (s0 s : CubeState Color), applyMoves toks s0 = .ok s →
      (colorList s).Perm (colorList s0) := by
  induction toks with
  | nil =>
    intro s0 s h
    injection h with h
    subst h
    exact List.Perm.refl _
  | cons t ts ih =>
    intro s0 s h
    simp only [applyMoves] at h
    cases h1 : applyMove t s0 with
    | error e => rw [h1] at h; exact absurd h (by simp [Except.bind])
    | ok s1 =>
      rw [h1] at h
      simp only [Except.bind] at h
      exact (ih s1 s h).trans (applyMove_perm t s0 s1 h1)

theorem initCube_counts : ∀ c : Color, (colorList initCube).count c = 9 := by
  decide

/-! ## Token-level behavior of `apply_move` -/

theorem dropWhile_no_ws (m : List Char) (hm : ∀ c ∈ m, c.isWhitespace = false) :
    m.dropWhile Char.isWhitespace = m := by
  cases m with
  | nil => rfl
  | cons a l =>
    rw [List.dropWhile_cons]
    simp [hm a (List.mem_cons_self a l)]

theorem pyStrip_no_ws (l : List Char) (h : ∀ c ∈ l, c.isWhitespace = false) :
    pyStrip l = l := by
  unfold pyStrip
  rw [dropWhile_no_ws l h,
    dropWhile_no_ws l.reverse (fun c hc => h c (List.mem_reverse.mp hc)),
    List.reverse_reverse]

theorem baseNoWs : ∀ b ∈ baseLetters, b.isWhitespace = false := by decide

theorem baseUpper : ∀ b ∈ baseLetters, b.toUpper = b := by decide

theorem applyMove_tok_plain {α : Type} (b : Char) (hb : b ∈ baseLetters)
    (s : CubeState α) : applyMove [b] s = applyTurns b 1 s := by
  have hstrip : pyStrip [b] = [b] :=
    pyStrip_no_ws _ (by
      intro c hc
      rw [List.mem_singleton.mp hc]
      exact baseNoWs b hb)
  simp only [applyMove, hstrip]
  rw [baseUpper b hb, if_pos hb, if_neg (by decide), if_neg (by decide), if_pos trivial]

theorem applyMove_tok_prime {α : Type} (b : Char) (hb : b ∈ baseLetters)
    (s : CubeState α) : applyMove [b, apos] s = applyTurns b 3 s := by
  have hstrip : pyStrip [b, apos] = [b, apos] :=
    pyStrip_no_ws _ (by
      intro c hc
      rcases List.mem_cons.mp hc with hc1 | hc1
      · rw [hc1]; exact baseNoWs b hb
      · rw [List.mem_singleton.mp hc1]; decide)
  simp only [applyMove, hstrip]
  rw [baseUpper b hb, if_pos hb, if_neg (by decide), if_pos trivial]

theorem applyMove_tok_double {α : Type} (b : Char) (hb : b ∈ baseLetters)
    (s : CubeState α) : applyMove [b, '2'] s = applyTurns b 2 s := by
  have hstrip : pyStrip [b, '2'] = [b, '2'] :=
    pyStrip_no_ws _ (by
      intro c hc
      rcases List.mem_cons.mp hc with hc1 | hc1
      · rw [hc1]; exact baseNoWs b hb
      · rw [List.mem_singleton.mp hc1]; decide)
  simp only [applyMove, hstrip]
  rw [baseUpper b hb, if_pos hb, if_pos trivial]

theorem applyTurns_add {α : Type} (b : Char) (n m : Nat) :
    ∀ s : CubeState α,
      applyTurns b (n + m) s = (applyTurns b n s).bind (applyTurns b m) := by
  induction n with
  | zero =>
    intro s
    rw [Nat.zero_add]
    rfl
  | succ k ih =>
    intro s
    rw [Nat.succ_add]
    show (applyBaseMoveCW b s).bind (applyTurns b (k + m)) =
      ((applyBaseMoveCW b s).bind (applyTurns b k)).bind (applyTurns b m)
    cases applyBaseMoveCW b s with
    | error e => rfl
    | ok s1 =>
      simp only [Except.bind]
      exact ih s1

theorem applyTurns_tab {α : Type} (b : Char) (hb : b ∈ baseLetters) :
    ∀ (k : Nat) (s : CubeState α),
      applyTurns b k s =
        .ok (fun f i => s ((tabApp (tabOf b))^[k] (f, i)).1 ((tabApp (tabOf b))^[k] (f, i)).2) := by
  intro k
  induction k with
  | zero => intro s; rfl
  | succ n ih =>
    intro s
    show (applyBaseMoveCW b s).bind (applyTurns b n) = _
    rw [applyBase_eq_tab b hb s]
    simp only [Except.bind]
    rw [ih]
    congr 1
    funext f i
    rw [Function.iterate_succ_apply']

theorem applyTurns4_id {α : Type} (b : Char) (hb : b ∈ baseLetters)
    (s : CubeState α) : applyTurns b 4 s = .ok s := by
  rw [applyTurns_tab b hb 4 s]
  congr 1
  funext f i
  have h4 : (tabApp (tabOf b))^[4] (f, i) = (f, i) := tabPow4 b hb (f, i)
  rw [h4]

theorem bindTurns4 (b : Char) (hb : b ∈ baseLetters) (k m : Nat) (hkm : k + m = 4)
    (s : CubeState Color) : (applyTurns b k s).bind (applyTurns b m) = .ok s := by
  rw [← applyTurns_add b k m s, hkm]
  exact applyTurns4_id b hb s

/-! ## `inverse_move` and `normalize_token` on canonical tokens -/

theorem validFaces_base : ∀ b ∈ VALID_FACES, b ∈ baseLetters := by decide

theorem inverse_plain : ∀ b ∈ VALID_FACES, inverseMove [b] = .ok [b, apos] := by decide

theorem inverse_prime : ∀ b ∈ VALID_FACES, inverseMove [b, apos] = .ok [b] := by decide

theorem inverse_double : ∀ b ∈ VALID_FACES, inverseMove [b, '2'] = .ok [b, '2'] := by
  decide

/-! ## Claim theorems -/

/-- C2.  Color-count invariant: every successful `apply_move` permutes the
54-slot color list, and after any sequence of valid moves applied to a
freshly constructed cube each of the 6 colors appears exactly 9 times. -/
theorem color_count_invariant :
    (∀ (t : List Char) (s s' : CubeState Color),
        applyMove t s = .ok s' → (colorList s').Perm (colorList s)) ∧
    (∀ (toks : List (List Char)) (s : CubeState Color),
        applyMoves toks initCube = .ok s →
          ∀ c : Color, (colorList s).count c = 9) := by
  constructor
  · intro t s s' h
    exact applyMove_perm t s s' h
  · intro toks s h c
    rw [List.Perm.count_eq (applyMoves_perm toks initCube s h)]
    exact initCube_counts c

/-- Witness for C2 at the empty move sequence. -/
theorem color_count_invariant_witness :
    applyMoves [] initCube = .ok initCube ∧
      ∀ c : Color, (colorList initCube).count c = 9 :=
  ⟨rfl, fun c => color_count_invariant.2 [] initCube rfl c⟩

/-- C3 (amended).  Round trip over the six-face alphabet accepted by
`inverse_move`: for a token `b + suffix` with `b` in `VALID_FACES` and
suffix in `VALID_SUFFIX`, applying the token and then its computed inverse
restores the prior `to_hashable` snapshot exactly. -/
theorem round_trip :
    ∀ b ∈ VALID_FACES, ∀ suf ∈ VALID_SUFFIX, ∀ s : CubeState Color,
      ∃ s2, roundTrip (b :: suf) s = .ok s2 ∧ toHashable s2 = toHashable s := by
  intro b hb suf hsuf s
  have hb9 : b ∈ baseLetters := validFaces_base b hb
  refine ⟨s, ?_, rfl⟩
  have hsuf3 : suf = [] ∨ suf = [apos] ∨ suf = ['2'] := by
    simpa [VALID_SUFFIX] using hsuf
  unfold roundTrip
  rcases hsuf3 with rfl | rfl | rfl
  · rw [applyMove_tok_plain b hb9 s]
    simp only [inverse_plain b hb, Except.bind, applyMove_tok_prime b hb9]
    show (applyTurns b 1 s).bind (applyTurns b 3) = .ok s
    exact bindTurns4 b hb9 1 3 rfl s
  · rw [applyMove_tok_prime b hb9 s]
    simp only [inverse_prime b hb, Except.bind, applyMove_tok_plain b hb9]
    show (applyTurns b 3 s).bind (applyTurns b 1) = .ok s
    exact bindTurns4 b hb9 3 1 rfl s
  · rw [applyMove_tok_double b hb9 s]
    simp only [inverse_double b hb, Except.bind, applyMove_tok_double b hb9]
    show (applyTurns b 2 s).bind (applyTurns b 2) = .ok s
    exact bindTurns4 b hb9 2 2 rfl s

/-- Witness for C3 at `b = R`, suffix `2`, on the solved cube. -/
theorem round_trip_witness :
    'R' ∈ VALID_FACES ∧ ['2'] ∈ VALID_SUFFIX ∧
      ∃ s2, roundTrip ['R', '2'] initCube = .ok s2 ∧
        toHashable s2 = toHashable initCube :=
  ⟨by decide, by decide, round_trip 'R' (by decide) ['2'] (by decide) initCube⟩

/-- Counterexample for C3 as stated: `E` is a valid `apply_move` token, but
`inverse_move("E")` raises, so the token/inverse round trip raises instead
of restoring the snapshot. -/
theorem round_trip_counterexample :
    roundTrip ['E'] initCube = .error "Movimiento inválido" ∧
      ∀ s2 : CubeState Color, roundTrip ['E'] initCube ≠ .ok s2 := by
  have h1 : roundTrip ['E'] initCube = .error "Movimiento inválido" := by decide
  exact ⟨h1, fun s2 h => by rw [h1] at h; exact Except.noConfusion h⟩

/-- C4.  Quarter-turn closure: for each of the nine base letters, four
consecutive applications of `_apply_base_move_cw` restore the prior
snapshot on every state. -/
theorem quarter_turn_closure :
    ∀ b ∈ baseLetters, ∀ s : CubeState Color,
      ∃ s4, applyTurns b 4 s = .ok s4 ∧ toHashable s4 = toHashable s :=
  fun b hb s => ⟨s, applyTurns4_id b hb s, rfl⟩

/-- Witness for C4 at the `E` slice on the solved cube. -/
theorem quarter_turn_closure_witness :
    'E' ∈ baseLetters ∧
      ∃ s4, applyTurns 'E' 4 initCube = .ok s4 ∧
        toHashable s4 = toHashable initCube :=
  ⟨by decide, quarter_turn_closure 'E' (by decide) initCube⟩

/-- C5.  Double-move equivalence: for every base letter of the move
alphabet, `apply_move("X2")` equals `apply_move("X")` twice on any state. -/
theorem double_move_equivalence :
    ∀ b ∈ baseLetters, ∀ s : CubeState Color,
      applyMove [b, '2'] s = (applyMove [b] s).bind (applyMove [b]) := by
  intro b hb s
  rw [applyMove_tok_double b hb s, applyMove_tok_plain b hb s]
  cases h : applyTurns b 1 s with
  | error e =>
    rw [show (2 : Nat) = 1 + 1 from rfl, applyTurns_add, h]
    rfl
  | ok s1 =>
    rw [show (2 : Nat) = 1 + 1 from rfl, applyTurns_add, h]
    simp only [Except.bind]
    exact (applyMove_tok_plain b hb s1).symm

/-- Witness for C5 at `B` on the solved cube. -/
theorem double_move_equivalence_witness :
    'B' ∈ baseLetters ∧
      applyMove ['B', '2'] initCube =
        (applyMove ['B'] initCube).bind (applyMove ['B']) :=
  ⟨by decide, double_move_equivalence 'B' (by decide) initCube⟩

/-- C7 (amended).  `apply_move` performs no token normalization: a
typographic apostrophe suffix or the malformed suffix `2'` raises, for
every base letter and every state (normalization happens only in
`normalize_token` / `parse_sequence`, which `apply_move` never calls). -/
theorem apply_move_no_normalization :
    ∀ b ∈ baseLetters, ∀ s : CubeState Color,
      applyMove [b, typApos1] s = .error "Sufijo no soportado" ∧
      applyMove [b, typApos2] s = .error "Sufijo no soportado" ∧
      applyMove [b, '2', apos] s = .error "Sufijo no soportado" := by
  intro b hb s
  refine ⟨?_, ?_, ?_⟩
  · have hstrip : pyStrip [b, typApos1] = [b, typApos1] :=
      pyStrip_no_ws _ (by
        intro c hc
        rcases List.mem_cons.mp hc with hc1 | hc1
        · rw [hc1]; exact baseNoWs b hb
        · rw [List.mem_singleton.mp hc1]; decide)
    simp only [applyMove, hstrip]
    rw [baseUpper b hb, if_pos hb, if_neg (by decide), if_neg (by decide),
      if_neg (by decide)]
  · have hstrip : pyStrip [b, typApos2] = [b, typApos2] :=
      pyStrip_no_ws _ (by
        intro c hc
        rcases List.mem_cons.mp hc with hc1 | hc1
        · rw [hc1]; exact baseNoWs b hb
        · rw [List.mem_singleton.mp hc1]; decide)
    simp only [applyMove, hstrip]
    rw [baseUpper b hb, if_pos hb, if_neg (by decide), if_neg (by decide),
      if_neg (by decide)]
  · have hstrip : pyStrip [b, '2', apos] = [b, '2', apos] :=
      pyStrip_no_ws _ (by
        intro c hc
        rcases List.mem_cons.mp hc with hc1 | hc1
        · rw [hc1]; exact baseNoWs b hb
        · rcases List.mem_cons.mp hc1 with hc2 | hc2
          · rw [hc2]; decide
          · rw [List.mem_singleton.mp hc2]; decide)
    simp only [applyMove, hstrip]
    rw [baseUpper b hb, if_pos hb, if_neg (by decide), if_neg (by decide),
      if_neg (by decide)]

/-- Witness for C7 (amended) at `R` on the solved cube. -/
theorem apply_move_no_normalization_witness :
    'R' ∈ baseLetters ∧
      applyMove ['R', typApos1] initCube = .error "Sufijo no soportado" ∧
      applyMove ['R', typApos2] initCube = .error "Sufijo no soportado" ∧
      applyMove ['R', '2', apos] initCube = .error "Sufijo no soportado" :=
  ⟨by decide, apply_move_no_normalization 'R' (by decide) initCube⟩

/-- Counterexample for C7 as stated: applying `R` with a typographic
apostrophe through `apply_move` raises instead of acting like `R'`. -/
theorem apply_move_typographic_counterexample :
    applyMove ['R', typApos1] initCube = .error "Sufijo no soportado" ∧
      applyMove ['R', '2', apos] initCube = .error "Sufijo no soportado" := by
  constructor <;> decide

/-- Whether an `Except` value is a success (no exception raised). -/
def isOkE {ε α : Type} : Except ε α → Bool
  | .ok _ => true
  | .error _ => false

theorem normalize_ok_iff (c : Char) (rest : List Char)
    (hclean : cleanTok (c :: rest) = c :: rest) :
    (isOkE (normalizeToken (c :: rest)) = true ↔
      c ∈ VALID_FACES ∧ (if rest = ['2', apos] then ['2'] else rest) ∈ VALID_SUFFIX) := by
  unfold normalizeToken
  rw [hclean]
  dsimp only
  by_cases h1 : rest = [] ∧ c ∈ VALID_FACES
  · rw [if_pos h1]
    constructor
    · intro _
      refine ⟨h1.2, ?_⟩
      rw [h1.1]
      decide
    · intro _
      rfl
  · rw [if_neg h1]
    by_cases h2 : c ∈ VALID_FACES
    · rw [if_neg (not_not_intro h2)]
      by_cases h3 : (if rest = ['2', apos] then ['2'] else rest) ∈ VALID_SUFFIX
      · rw [if_pos h3]
        exact ⟨fun _ => ⟨h2, h3⟩, fun _ => rfl⟩
      · rw [if_neg h3]
        constructor
        · intro hh
          exact absurd hh (by simp [isOkE])
        · intro hh
          exact absurd hh.2 h3
    · rw [if_pos h2]
      constructor
      · intro hh
        exact absurd hh (by simp [isOkE])
      · intro hh
        exact absurd hh.1 h2

theorem normList_first_error :
    ∀ (pre : List (List Char)) (t : List Char) (post : List (List Char)) (e : String),
      (∀ u ∈ pre, isOkE (normalizeToken u) = true) →
      normalizeToken t = .error e →
      normList (pre ++ t :: post) = .error e := by
  intro pre
  induction pre with
  | nil =>
    intro t post e _ ht
    simp only [List.nil_append, normList, ht, Except.bind]
  | cons u pre ih =>
    intro t post e hpre ht
    have hu := hpre u (List.mem_cons_self u pre)
    obtain ⟨nv, hn⟩ : ∃ nv, normalizeToken u = .ok nv := by
      cases hh : normalizeToken u with
      | ok nv => exact ⟨nv, rfl⟩
      | error e2 => rw [hh] at hu; exact absurd hu (by simp [isOkE])
    simp only [List.cons_append, normList, hn, Except.bind]
    have hih : normList (pre ++ t :: post) = Except.error e :=
      ih t post e (fun v hv => hpre v (List.mem_cons_of_mem u hv)) ht
    show Except.map (fun ns => nv :: ns) (normList (pre ++ t :: post)) = Except.error e
    rw [hih]
    rfl

/-- C6 (amended).  `normalize_token` validates against the six-face
alphabet `VALID_FACES` (not the nine-letter one): it accepts exactly the
clean tokens whose base letter is a valid face and whose suffix (after
collapsing the malformed `2'` to `2`) is a valid suffix, returning the
normalized token, and `parse_sequence` fails with the error of the first
invalid token. -/
theorem normalize_token_behavior :
    (∀ b ∈ VALID_FACES, ∀ suf ∈ ([[], [apos], ['2'], ['2', apos]] : List (List Char)),
        normalizeToken (b :: suf) = .ok (b :: if suf = ['2', apos] then ['2'] else suf)) ∧
    (∀ (c : Char) (rest : List Char), cleanTok (c :: rest) = c :: rest →
        (isOkE (normalizeToken (c :: rest)) = true ↔
          c ∈ VALID_FACES ∧ (if rest = ['2', apos] then ['2'] else rest) ∈ VALID_SUFFIX)) ∧
    (∀ (text : List Char) (pre : List (List Char)) (t : List Char)
        (post : List (List Char)) (e : String),
        (pySplit (pyStrip text)).filter (fun u => pyStrip u ≠ []) = pre ++ t :: post →
        (∀ u ∈ pre, isOkE (normalizeToken u) = true) →
        normalizeToken t = .error e →
        parseSequence text = .error e) := by
  refine ⟨by decide, normalize_ok_iff, ?_⟩
  intro text pre t post e hsplit hpre ht
  unfold parseSequence
  rw [hsplit]
  exact normList_first_error pre t post e hpre ht

/-- Witness for C6 (amended): the malformed suffix is collapsed, a bad
letter is rejected, and a sequence fails at its first invalid token. -/
theorem normalize_token_behavior_witness :
    normalizeToken ['R', '2', apos] =
        .ok ('R' :: if ['2', apos] = ['2', apos] then ['2'] else ['2', apos]) ∧
      (isOkE (normalizeToken ['Q']) = true ↔
        'Q' ∈ VALID_FACES ∧ (if ([] : List Char) = ['2', apos] then ['2'] else []) ∈ VALID_SUFFIX) ∧
      parseSequence ['R', ' ', 'Q'] = .error "Movimiento inválido" :=
  ⟨normalize_token_behavior.1 'R' (by decide) ['2', apos] (by decide),
   normalize_token_behavior.2.1 'Q' [] (by decide),
   normalize_token_behavior.2.2 ['R', ' ', 'Q'] [['R']] ['Q'] [] "Movimiento inválido"
     (by decide) (by decide) (by decide)⟩

/-- Counterexample for C6 as stated: the slice letters of the claimed
nine-letter alphabet are rejected by `normalize_token`. -/
theorem normalize_token_counterexample :
    normalizeToken ['E'] = .error "Movimiento inválido" ∧
      normalizeToken ['M'] = .error "Movimiento inválido" ∧
      normalizeToken ['S'] = .error "Movimiento inválido" := by
  refine ⟨?_, ?_, ?_⟩ <;> decide

theorem applySeqGo_partial {α : Type} :
    ∀ (pre : List (List Char)) (t : List Char) (post : List (List Char))
      (s s1 : CubeState α) (e : String),
      applySeqGo pre s = (s1, none) → applyMove t s1 = .error e →
      applySeqGo (pre ++ t :: post) s = (s1, some e) := by
  intro pre
  induction pre with
  | nil =>
    intro t post s s1 e h ht
    have hs : s = s1 := congrArg Prod.fst h
    subst hs
    simp only [List.nil_append, applySeqGo, ht]
  | cons u pre ih =>
    intro t post s s1 e h ht
    simp only [applySeqGo] at h
    simp only [List.cons_append, applySeqGo]
    cases hu : applyMove u s with
    | error e2 =>
      rw [hu] at h
      have : (some e2 : Option String) = none := congrArg Prod.snd h
      exact absurd this (by simp)
    | ok s2 =>
      rw [hu] at h
      exact ih t post s2 s1 e h ht

/-- C10.  `apply_sequence` is not atomic: tokens are applied strictly left
to right, and when a token raises, the state keeps the mutations of the
earlier valid tokens (partial-apply, no pre-validation, no rollback). -/
theorem apply_sequence_partial :
    ∀ (text : List Char) (s : CubeState Color) (pre : List (List Char))
      (t : List Char) (post : List (List Char)) (s1 : CubeState Color) (e : String),
      pySplit text = pre ++ t :: post →
      applySeqGo pre s = (s1, none) →
      applyMove t s1 = .error e →
      applySequence text s = (s1, some e) := by
  intro text s pre t post s1 e hsplit hpre ht
  unfold applySequence
  rw [hsplit]
  exact applySeqGo_partial pre t post s s1 e hpre ht

/-- Witness for C10: in `"R Q"` the `R` move stays applied after `Q`
raises. -/
theorem apply_sequence_partial_witness :
    pySplit ['R', ' ', 'Q'] = [['R']] ++ ['Q'] :: [] ∧
      applySeqGo [['R']] initCube = ((applySeqGo [['R']] initCube).1, none) ∧
      applyMove ['Q'] (applySeqGo [['R']] initCube).1 = .error "Movimiento no soportado" ∧
      applySequence ['R', ' ', 'Q'] initCube =
        ((applySeqGo [['R']] initCube).1, some "Movimiento no soportado") := by
  refine ⟨by decide, by decide, by decide, ?_⟩
  exact apply_sequence_partial ['R', ' ', 'Q'] initCube [['R']] ['Q'] []
    (applySeqGo [['R']] initCube).1 "Movimiento no soportado"
    (by decide) (by decide) (by decide)

/-! ## Solver soundness -/

theorem dfsLoop_sound
    (next : CubeState Color → List (List Char) → List CubeHash → List Char → Nat →
      Except String (Option (List (List Char)) × Nat))
    (hnext : ∀ m p sn lm pl ans pl2, next m p sn lm pl = .ok (some ans, pl2) →
      ∃ ext s2, ans = p ++ ext ∧ applyMoves ext m = .ok s2 ∧ isSolved s2 = true) :
    ∀ (moves : List (List Char)) (m : CubeState Color) (p : List (List Char))
      (sn : List CubeHash) (lm : Option (List Char)) (pl : Nat)
      (ans : List (List Char)) (pl2 : Nat),
      dfsLoop next moves m p sn lm pl = .ok (some ans, pl2) →
      ∃ ext s2, ans = p ++ ext ∧ applyMoves ext m = .ok s2 ∧ isSolved s2 = true := by
  intro moves
  induction moves with
  | nil =>
    intro m p sn lm pl ans pl2 h
    simp only [dfsLoop] at h
    simp at h
  | cons mv rest ih =>
    intro m p sn lm pl ans pl2 h
    simp only [dfsLoop] at h
    split at h
    · exact ih m p sn lm pl ans pl2 h
    · split at h
      · exact Except.noConfusion h
      · rename_i child heq
        split at h
        · exact ih m p sn lm pl ans pl2 h
        · split at h
          · exact Except.noConfusion h
          · rename_i ans2 p2 heq2
            injection h with h
            have hans : some ans2 = some ans := congrArg Prod.fst h
            injection hans with hans
            subst hans
            obtain ⟨ext, s2, he, ha, hs⟩ :=
              hnext child (p ++ [mv]) (toHashable child :: sn) mv pl ans2 p2 heq2
            refine ⟨mv :: ext, s2, ?_, ?_, hs⟩
            · rw [he, List.append_assoc]
              rfl
            · show applyMoves (mv :: ext) m = .ok s2
              simp only [applyMoves, heq, Except.bind]
              exact ha
          · rename_i p2 heq2
            exact ih m p sn lm p2 ans pl2 h

theorem dfs_eq (cancel : Option (Nat → Bool)) (rem : Nat) (m : CubeState Color)
    (p : List (List Char)) (sn : List CubeHash) (lm : Option (List Char)) (pl : Nat) :
    dfs cancel rem m p sn lm pl =
      if (pollCancel cancel pl).1 then .ok (none, (pollCancel cancel pl).2)
      else if isSolved m then .ok (some p, (pollCancel cancel pl).2)
      else
        match rem with
        | 0 => .ok (none, (pollCancel cancel pl).2)
        | r + 1 =>
          dfsLoop (fun m2 p2 sn2 lm2 pl3 => dfs cancel r m2 p2 sn2 (some lm2) pl3)
            MOVES m p sn lm (pollCancel cancel pl).2 := by
  cases rem with
  | zero => rfl
  | succ r => rfl

theorem dfs_sound (cancel : Option (Nat → Bool)) :
    ∀ (rem : Nat) (m : CubeState Color) (p : List (List Char)) (sn : List CubeHash)
      (lm : Option (List Char)) (pl : Nat) (ans : List (List Char)) (pl2 : Nat),
      dfs cancel rem m p sn lm pl = .ok (some ans, pl2) →
      ∃ ext s2, ans = p ++ ext ∧ applyMoves ext m = .ok s2 ∧ isSolved s2 = true := by
  intro rem
  induction rem with
  | zero =>
    intro m p sn lm pl ans pl2 h
    rw [dfs_eq] at h
    by_cases hc : (pollCancel cancel pl).1 = true
    · rw [if_pos hc] at h
      simp at h
    · rw [if_neg hc] at h
      by_cases hs : isSolved m = true
      · rw [if_pos hs] at h
        injection h with h
        have hpa : some p = some ans := congrArg Prod.fst h
        injection hpa with hpa
        exact ⟨[], m, by rw [← hpa]; simp, rfl, hs⟩
      · rw [if_neg hs] at h
        simp at h
  | succ r ih =>
    intro m p sn lm pl ans pl2 h
    rw [dfs_eq] at h
    by_cases hc : (pollCancel cancel pl).1 = true
    · rw [if_pos hc] at h
      simp at h
    · rw [if_neg hc] at h
      by_cases hs : isSolved m = true
      · rw [if_pos hs] at h
        injection h with h
        have hpa : some p = some ans := congrArg Prod.fst h
        injection hpa with hpa
        exact ⟨[], m, by rw [← hpa]; simp, rfl, hs⟩
      · rw [if_neg hs] at h
        have h2 : dfsLoop (fun m2 p2 sn2 lm2 pl3 => dfs cancel r m2 p2 sn2 (some lm2) pl3)
            MOVES m p sn lm (pollCancel cancel pl).2 = .ok (some ans, pl2) := h
        exact dfsLoop_sound _
          (fun m2 p2 sn2 lm2 pl3 ans2 pl4 hcall =>
            ih m2 p2 sn2 (some lm2) pl3 ans2 pl4 hcall)
          MOVES m p sn lm _ ans pl2 h2

theorem iddfsLoop_sound (cancel : Option (Nat → Bool)) (start : CubeState Color)
    (startHash : CubeHash) :
    ∀ (depths : List Nat) (polls : Nat) (res : List (List Char)),
      iddfsLoop cancel start startHash depths polls = .ok (some res) →
      ∃ s2, applyMoves res start = .ok s2 ∧ isSolved s2 = true := by
  intro depths
  induction depths with
  | nil =>
    intro polls res h
    simp [iddfsLoop] at h
  | cons d ds ih =>
    intro polls res h
    have hloop : iddfsLoop cancel start startHash (d :: ds) polls =
        (if (pollCancel cancel polls).1 then .ok none
         else
           match dfs cancel d start [] [startHash] none (pollCancel cancel polls).2 with
           | .error e => .error e
           | .ok (some r2, _) => .ok (some r2)
           | .ok (none, p2) => iddfsLoop cancel start startHash ds p2) := rfl
    rw [hloop] at h
    by_cases hc : (pollCancel cancel polls).1 = true
    · rw [if_pos hc] at h
      simp at h
    · rw [if_neg hc] at h
      split at h
      · exact Except.noConfusion h
      · rename_i r2 pl2 heq
        injection h with h
        injection h with h
        subst h
        obtain ⟨ext, s2, he, ha, hs⟩ :=
          dfs_sound cancel d start [] [startHash] none _ r2 pl2 heq
        rw [List.nil_append] at he
        subst he
        exact ⟨s2, ha, hs⟩
      · rename_i p2 heq
        exact ih _ res h

/-- C1.  Solver soundness: whenever `iddfs_solve` returns a (possibly
empty) move list, applying those tokens in order via `apply_move` to the
original state yields a state on which `is_solved` is true. -/
theorem solver_soundness :
    ∀ (model : CubeState Color) (maxDepth : Int) (cancel : Option (Nat → Bool))
      (moves : List (List Char)),
      iddfsSolve model maxDepth cancel = .ok (some moves) →
      ∃ s2, applyMoves moves model = .ok s2 ∧ isSolved s2 = true := by
  intro model maxDepth cancel moves h
  unfold iddfsSolve at h
  split at h
  · rename_i hsol
    injection h with h
    injection h with h
    exact ⟨model, by rw [← h]; rfl, hsol⟩
  · exact iddfsLoop_sound cancel model (toHashable model) (iddfsDepths maxDepth) 0 moves h

/-- Witness for C1 on the already-solved cube, where the solver returns
the empty solution. -/
theorem solver_soundness_witness :
    iddfsSolve initCube 3 none = .ok (some []) ∧
      ∃ s2, applyMoves [] initCube = .ok s2 ∧ isSolved s2 = true := by
  have h : iddfsSolve initCube 3 none = .ok (some []) := by
    unfold iddfsSolve
    rw [if_pos (by decide)]
  exact ⟨h, solver_soundness initCube 3 none [] h⟩

/-- C8 (amended).  On any state that is not already solved, an
always-true `should_cancel` makes `iddfs_solve` return none for every
`max_depth` (the first poll of the first depth iteration aborts). -/
theorem cancellation_returns_none :
    ∀ model : CubeState Color, isSolved model = false →
      ∀ maxDepth : Int,
        iddfsSolve model maxDepth (some (fun _ => true)) = .ok none := by
  intro model hm maxDepth
  unfold iddfsSolve
  rw [hm, if_neg (by simp)]
  cases iddfsDepths maxDepth with
  | nil => rfl
  | cons d ds => rfl

/-- Witness for C8 (amended) on the all-white (unsolved) state. -/
theorem cancellation_returns_none_witness :
    isSolved (fun _ _ => Color.W) = false ∧
      iddfsSolve (fun _ _ => Color.W) 7 (some (fun _ => true)) = .ok none :=
  ⟨by decide, cancellation_returns_none (fun _ _ => Color.W) (by decide) 7⟩

/-- Counterexample for C8 as stated: on an already-solved state the
solver returns the empty solution, not none, even though the cancel
predicate is always true. -/
theorem cancellation_counterexample :
    iddfsSolve initCube 5 (some (fun _ => true)) = .ok (some []) ∧
      iddfsSolve initCube 5 (some (fun _ => true)) ≠ .ok none := by
  have h : iddfsSolve initCube 5 (some (fun _ => true)) = .ok (some []) := by
    unfold iddfsSolve
    rw [if_pos (by decide)]
  refine ⟨h, ?_⟩
  rw [h]
  intro hc
  injection hc with hc
  exact Option.noConfusion hc

/-! ## Scramble shape -/

theorem splitAux_nonws_run :
    ∀ (w : List Char), (∀ c ∈ w, c.isWhitespace = false) →
      ∀ (cs acc : List Char), splitAux (w ++ cs) acc = splitAux cs (w.reverse ++ acc) := by
  intro w
  induction w with
  | nil => intro _ cs acc; simp
  | cons a wst ih =>
    intro hw cs acc
    have ha : a.isWhitespace = false := hw a (List.mem_cons_self a wst)
    simp only [List.cons_append, splitAux, ha, Bool.false_eq_true, if_false]
    show splitAux (wst ++ cs) (a :: acc) = _
    rw [ih (fun c hc => hw c (List.mem_cons_of_mem a hc)) cs (a :: acc)]
    simp [List.append_assoc]

theorem pySplit_joinSpaces :
    ∀ toks : List (List Char),
      (∀ t ∈ toks, t ≠ [] ∧ ∀ c ∈ t, c.isWhitespace = false) →
      pySplit (joinSpaces toks) = toks := by
  intro toks
  induction toks with
  | nil => intro _; rfl
  | cons t ts ih =>
    intro h
    obtain ⟨htne, htw⟩ := h t (List.mem_cons_self t ts)
    cases ts with
    | nil =>
      show pySplit t = [t]
      unfold pySplit
      have hpre := splitAux_nonws_run t htw [] []
      rw [List.append_nil] at hpre
      rw [hpre]
      simp only [splitAux, List.append_nil]
      rw [if_neg (by simpa using htne), List.reverse_reverse]
    | cons t2 ts2 =>
      show pySplit (t ++ (' ' :: joinSpaces (t2 :: ts2))) = t :: t2 :: ts2
      unfold pySplit
      rw [splitAux_nonws_run t htw (' ' :: joinSpaces (t2 :: ts2)) [],
        List.append_nil]
      simp only [splitAux]
      rw [if_pos (show (' ').isWhitespace = true by decide),
        if_neg (by simpa using htne), List.reverse_reverse]
      have hih := ih (fun u hu => h u (List.mem_cons_of_mem t hu))
      unfold pySplit at hih
      rw [hih]

theorem candidates_ne_nil (last : Option Char) :
    SCR_FACES.filter (fun m => last ≠ some m) ≠ [] := by
  intro hc
  rw [List.filter_eq_nil_iff] at hc
  have h1 := hc 'U' (by decide)
  have h2 := hc 'D' (by decide)
  simp at h1 h2
  rw [h1] at h2
  exact absurd h2 (by decide)

theorem choice_mem {α : Type} (d : α) (stream : Nat → Nat) (k : Nat) (l : List α)
    (hl : l ≠ []) : (rngChoice d stream k l).1 ∈ l := by
  unfold rngChoice
  have hlen : 0 < l.length := List.length_pos.mpr hl
  have hidx : stream k % l.length < l.length := Nat.mod_lt _ hlen
  dsimp only
  rw [List.getD_eq_getElem l d hidx]
  exact List.getElem_mem hidx

theorem scrambleGo_spec (stream : Nat → Nat) :
    ∀ (n : Nat) (last : Option Char) (k : Nat),
      (scrambleGo stream n last k).length = n ∧
      (∀ t ∈ scrambleGo stream n last k,
        ∃ f ∈ SCR_FACES, ∃ suf ∈ SCR_SUFFIX, t = f :: suf) ∧
      List.Chain' (fun a b : List Char => a.head? ≠ b.head?) (scrambleGo stream n last k) ∧
      (∀ t, (scrambleGo stream n last k).head? = some t →
        ∀ lf, last = some lf → t.head? ≠ some lf) := by
  intro n
  induction n with
  | zero =>
    intro last k
    refine ⟨rfl, ?_, List.chain'_nil, ?_⟩
    · intro t ht
      simp [scrambleGo] at ht
    · intro t ht
      simp [scrambleGo] at ht
  | succ n ih =>
    intro last k
    have hstep : scrambleGo stream (n + 1) last k =
        ((rngChoice 'U' stream k (SCR_FACES.filter (fun m => last ≠ some m))).1 ::
          (rngChoice ([] : List Char) stream
            ((rngChoice 'U' stream k (SCR_FACES.filter (fun m => last ≠ some m))).2)
            SCR_SUFFIX).1) ::
        scrambleGo stream n
          (some (rngChoice 'U' stream k (SCR_FACES.filter (fun m => last ≠ some m))).1)
          ((rngChoice ([] : List Char) stream
            ((rngChoice 'U' stream k (SCR_FACES.filter (fun m => last ≠ some m))).2)
            SCR_SUFFIX).2) := rfl
    rw [hstep]
    set cnd := SCR_FACES.filter (fun m => last ≠ some m) with hcnd
    set face := (rngChoice 'U' stream k cnd).1 with hface
    set sufc := (rngChoice ([] : List Char) stream ((rngChoice 'U' stream k cnd).2) SCR_SUFFIX).1 with hsufc
    set k2 := (rngChoice ([] : List Char) stream ((rngChoice 'U' stream k cnd).2) SCR_SUFFIX).2 with hk2
    have hcne : cnd ≠ [] := candidates_ne_nil last
    have hfmem : face ∈ cnd := choice_mem _ _ _ _ hcne
    have hfS : face ∈ SCR_FACES := (List.mem_filter.mp hfmem).1
    have hfne : last ≠ some face := of_decide_eq_true (List.mem_filter.mp hfmem).2
    have hsmem : sufc ∈ SCR_SUFFIX := choice_mem _ _ _ _ (by decide)
    obtain ⟨ihlen, ihwf, ihchain, ihhead⟩ := ih (some face) k2
    refine ⟨?_, ?_, ?_, ?_⟩
    · simp [ihlen]
    · intro t ht
      rcases List.mem_cons.mp ht with ht1 | ht2
      · exact ⟨face, hfS, sufc, hsmem, ht1⟩
      · exact ihwf t ht2
    · refine List.chain'_cons'.mpr ⟨?_, ihchain⟩
      intro t2 ht2
      have h3 := ihhead t2 (Option.mem_def.mp ht2) face rfl
      show (face :: sufc).head? ≠ t2.head?
      simp only [List.head?_cons]
      intro hcontra
      exact h3 hcontra.symm
    · intro t ht lf hlast
      simp only [List.head?_cons] at ht
      injection ht with ht
      subst ht
      simp only [List.head?_cons]
      intro hcontra
      injection hcontra with hcontra
      rw [hlast] at hfne
      exact hfne (by rw [hcontra])

theorem scrFaces_nonws : ∀ f ∈ SCR_FACES, f.isWhitespace = false := by decide

theorem scrSuffix_nonws : ∀ suf ∈ SCR_SUFFIX, ∀ c ∈ suf, c.isWhitespace = false := by
  decide

/-- C9.  Scramble shape: for every choice stream (abstracting the seeded
PRNG) and every `n ≥ 1`, `generate_scramble` returns exactly `n` tokens,
each a face letter from the six outer faces with one of the three
suffixes, with no two consecutive tokens on the same face; for `n ≤ 0` it
raises. -/
theorem scramble_shape :
    ∀ (n : Int) (stream : Nat → Nat),
      (1 ≤ n →
        ∃ out, generateScramble n stream = .ok out ∧
          (pySplit out).length = n.toNat ∧ ((n.toNat : Int) = n) ∧
          (∀ t ∈ pySplit out, ∃ f ∈ SCR_FACES, ∃ suf ∈ SCR_SUFFIX, t = f :: suf) ∧
          List.Chain' (fun a b : List Char => a.head? ≠ b.head?) (pySplit out)) ∧
      (n ≤ 0 → generateScramble n stream = .error "n debe ser mayor que 0.") := by
  intro n stream
  constructor
  · intro hn
    obtain ⟨hlen, hwf, hchain, _⟩ := scrambleGo_spec stream n.toNat none 0
    have hnws : ∀ t ∈ scrambleGo stream n.toNat none 0,
        t ≠ [] ∧ ∀ c ∈ t, c.isWhitespace = false := by
      intro t ht
      obtain ⟨f, hf, suf, hsuf, ht2⟩ := hwf t ht
      subst ht2
      refine ⟨by simp, ?_⟩
      intro c hc
      rcases List.mem_cons.mp hc with hc1 | hc1
      · rw [hc1]; exact scrFaces_nonws f hf
      · exact scrSuffix_nonws suf hsuf c hc1
    have hsplit : pySplit (joinSpaces (scrambleGo stream n.toNat none 0)) =
        scrambleGo stream n.toNat none 0 := pySplit_joinSpaces _ hnws
    refine ⟨joinSpaces (scrambleGo stream n.toNat none 0), ?_, ?_, ?_, ?_, ?_⟩
    · unfold generateScramble
      rw [if_neg (by omega)]
    · rw [hsplit]; exact hlen
    · omega
    · rw [hsplit]; exact hwf
    · rw [hsplit]; exact hchain
  · intro hn
    unfold generateScramble
    rw [if_pos hn]

/-- Witness for C9 at `n = 2` with the constant-zero stream, and the
failure at `n = 0`. -/
theorem scramble_shape_witness :
    (∃ out, generateScramble 2 (fun _ => 0) = .ok out ∧
        (pySplit out).length = (2 : Int).toNat ∧ (((2 : Int).toNat : Int) = 2) ∧
        (∀ t ∈ pySplit out, ∃ f ∈ SCR_FACES, ∃ suf ∈ SCR_SUFFIX, t = f :: suf) ∧
        List.Chain' (fun a b : List Char => a.head? ≠ b.head?) (pySplit out)) ∧
      generateScramble 0 (fun _ => 0) = .error "n debe ser mayor que 0." :=
  ⟨(scramble_shape 2 (fun _ => 0)).1 (by decide),
   (scramble_shape 0 (fun _ => 0)).2 (by decide)⟩

end RubikSim
